import Mathlib

/-!
Verification of the session-orchestration core of the cpp-driver
(`src/session.hpp`): host registry, session connect/close protocol,
futures, and the event-injection interface.

Pure shallow embedding: the inline C++ bodies in `session.hpp` are
translated directly; Session member functions that are only declared in
the header are modelled from the specification (each such definition says
so in its doc comment).
-/

/-- Network address of a cluster node (`cass::Address`), abstracted to its
identity. -/
abbrev Address := Nat

/-- Reachability state of a host (spec 4.2). -/
inductive HostState
  | PENDING
  | UP
  | DOWN
deriving DecidableEq, Repr

/-- One cluster node (`cass::Host`): identity address, reachability state,
and the reconciliation mark flag. -/
structure Host where
  address : Address
  state : HostState
  mark : Bool
deriving DecidableEq, Repr

/-- The host registry: the `hosts_` map together with `current_host_mark_`
(`session.hpp:136-137`). The map is represented as the list of hosts in
map order. -/
structure HostRegistry where
  hosts : List Host
  current_host_mark : Bool
deriving Repr

/-- Address-uniqueness invariant of the registry: `hosts_` is a map keyed
by address, so no two entries share an address. -/
def HostRegistry.addrNodup (r : HostRegistry) : Prop :=
  (r.hosts.map Host.address).Nodup

instance (r : HostRegistry) : Decidable r.addrNodup := by
  unfold HostRegistry.addrNodup
  infer_instance

/-- Modelled from the spec: the body of `Session::add_host`
(declared at `session.hpp:84`) is not in the header. Spec 4.1: returns the
existing Host if one with this address is present, else creates, inserts
and returns a new Host in `PENDING` state; `should_mark` optionally sets
the reconciliation mark to the current pass mark (a host created or
marked outside a pass carries the stale mark). -/
def add_host (r : HostRegistry) (a : Address) (should_mark : Bool) :
    Host × HostRegistry :=
  match r.hosts.find? (fun h => h.address == a) with
  | some h =>
      if should_mark then
        let h' : Host := { h with mark := r.current_host_mark }
        let remarked :=
          r.hosts.map (fun g => if g.address == a then { g with mark := r.current_host_mark } else g)
        (h', { r with hosts := remarked })
      else
        (h, r)
  | none =>
      let h : Host :=
        { address := a
          state := HostState.PENDING
          mark := if should_mark then r.current_host_mark else !r.current_host_mark }
      (h, { r with hosts := r.hosts ++ [h] })

/-- Modelled from the spec: the body of `Session::purge_hosts`
(declared at `session.hpp:85`) is not in the header. Walks the host map
erasing every host whose mark flag does not match `current_host_mark_`,
collecting the addresses removed (in map order). -/
def purgeWalk (mark : Bool) : List Host → List Host × List Address
  | [] => ([], [])
  | h :: t =>
      let p := purgeWalk mark t
      if h.mark == mark then (h :: p.1, p.2) else (p.1, h.address :: p.2)

/-- Modelled from the spec: `Session::purge_hosts(is_initial_connection)`
(spec 4.1) removes every host whose mark flag is unset for the current
pass; on non-initial purges each removal triggers a remove-notification
to dependents. Returns the new registry and the list of addresses for
which a remove-notification is issued. -/
def purge_hosts (r : HostRegistry) (is_initial_connection : Bool) :
    HostRegistry × List Address :=
  let p := purgeWalk r.current_host_mark r.hosts
  ({ r with hosts := p.1 }, if is_initial_connection then [] else p.2)

/-- A registry operation issued by the session thread: `add_host` or
`purge_hosts`. -/
inductive RegistryOp
  | add (a : Address) (should_mark : Bool)
  | purge (is_initial_connection : Bool)

/-- Apply one registry operation, discarding the returned host or
notification list. -/
def runRegistryOp (r : HostRegistry) : RegistryOp → HostRegistry
  | RegistryOp.add a m => (add_host r a m).2
  | RegistryOp.purge i => (purge_hosts r i).1

/-- Apply a sequence of registry operations. -/
def runRegistryOps (r : HostRegistry) : List RegistryOp → HostRegistry
  | [] => r
  | op :: ops => runRegistryOps (runRegistryOp r op) ops

theorem purgeWalk_eq_filter (mark : Bool) (l : List Host) :
    purgeWalk mark l =
      (l.filter (fun h => h.mark == mark),
       (l.filter (fun h => h.mark != mark)).map Host.address) := by
  induction l with
  | nil => rfl
  | cons h t ih =>
      simp only [purgeWalk, ih, List.filter_cons]
      cases hm : h.mark == mark <;> simp [hm, bne]

theorem add_host_map_address (r : HostRegistry) (a : Address) (m : Bool) :
    ((add_host r a m).2.hosts.map Host.address) =
      (r.hosts.map Host.address) ++
        (if (r.hosts.find? (fun h => h.address == a)).isSome then [] else [a]) := by
  unfold add_host
  cases hf : r.hosts.find? (fun h => h.address == a) with
  | some h =>
      cases m with
      | false => simp [hf]
      | true =>
          simp only [hf, if_pos, Option.isSome_some, if_true, List.append_nil]
          simp only [List.map_map]
          apply List.map_congr_left
          intro g _
          by_cases hg : g.address == a <;> simp [hg, Function.comp]
  | none => simp [hf]

theorem runRegistryOp_addrNodup (r : HostRegistry) (op : RegistryOp)
    (h : r.addrNodup) : (runRegistryOp r op).addrNodup := by
  cases op with
  | add a m =>
      unfold HostRegistry.addrNodup at *
      simp only [runRegistryOp, add_host_map_address]
      cases hf : (r.hosts.find? (fun h => h.address == a)).isSome with
      | true => simpa using h
      | false =>
          simp only [Bool.false_eq_true, if_false]
          rw [List.nodup_append]
          refine ⟨h, List.nodup_singleton a, ?_⟩
          intro x hx hxa
          simp only [List.mem_singleton] at hxa
          simp only [List.mem_map] at hx
          obtain ⟨g, hg, hga⟩ := hx
          have hsome : (r.hosts.find? (fun h => h.address == a)).isSome = true := by
            rw [List.find?_isSome]
            refine ⟨g, hg, ?_⟩
            simp [hga, hxa]
          rw [hf] at hsome
          exact Bool.noConfusion hsome
  | purge i =>
      unfold HostRegistry.addrNodup at *
      simp only [runRegistryOp, purge_hosts, purgeWalk_eq_filter]
      exact List.Nodup.sublist
        (List.Sublist.map Host.address (List.filter_sublist r.hosts)) h

theorem runRegistryOps_addrNodup (ops : List RegistryOp) (r : HostRegistry)
    (h : r.addrNodup) : (runRegistryOps r ops).addrNodup := by
  induction ops generalizing r with
  | nil => exact h
  | cons op ops ih => exact ih _ (runRegistryOp_addrNodup r op h)

/-- Concrete registry used to witness the registry theorems: one UP host at
address 5 carrying the current mark. -/
def regW : HostRegistry :=
  { hosts := [{ address := 5, state := HostState.UP, mark := true }]
    current_host_mark := true }

/-- Claim C3: `add_host` is idempotent — if a host with the given address is
already present it returns that existing host and leaves the registry
unchanged; otherwise it creates, inserts and returns a new host whose
reachability state is `PENDING`; and over all sequences of
`add_host`/`purge_hosts` calls the registry never contains two entries with
the same address. -/
theorem add_host_idempotent_nodup (r : HostRegistry) (a : Address)
    (hwf : r.addrNodup) :
    (∀ h, r.hosts.find? (fun g => g.address == a) = some h →
        add_host r a false = (h, r))
    ∧ (r.hosts.find? (fun g => g.address == a) = none →
        ∀ m, (add_host r a m).1.state = HostState.PENDING
          ∧ (add_host r a m).1.address = a
          ∧ (add_host r a m).2.hosts = r.hosts ++ [(add_host r a m).1])
    ∧ (∀ ops, (runRegistryOps r ops).addrNodup) := by
  refine ⟨?_, ?_, ?_⟩
  · intro h hf
    simp [add_host, hf]
  · intro hf m
    refine ⟨?_, ?_, ?_⟩ <;> simp [add_host, hf]
  · intro ops
    exact runRegistryOps_addrNodup ops r hwf

theorem add_host_idempotent_nodup_witness :
    ((∀ h, regW.hosts.find? (fun g => g.address == 5) = some h →
        add_host regW 5 false = (h, regW))
    ∧ (regW.hosts.find? (fun g => g.address == 5) = none →
        ∀ m, (add_host regW 5 m).1.state = HostState.PENDING
          ∧ (add_host regW 5 m).1.address = 5
          ∧ (add_host regW 5 m).2.hosts = regW.hosts ++ [(add_host regW 5 m).1])
    ∧ (∀ ops, (runRegistryOps regW ops).addrNodup)) :=
  add_host_idempotent_nodup regW 5 (by decide)

/-- Claim C4: `purge_hosts` removes from the registry exactly the hosts whose
mark flag differs from the current reconciliation mark, keeping every marked
host; the remove-notification list on a non-initial purge has exactly the
removed addresses, and an initial purge issues no notifications. -/
theorem purge_hosts_removes_unmarked (r : HostRegistry) (i : Bool) :
    (purge_hosts r i).1.hosts = r.hosts.filter (fun h => h.mark == r.current_host_mark)
    ∧ (∀ h ∈ r.hosts, h.mark = r.current_host_mark → h ∈ (purge_hosts r i).1.hosts)
    ∧ (purge_hosts r false).2 =
        (r.hosts.filter (fun h => h.mark != r.current_host_mark)).map Host.address
    ∧ (purge_hosts r true).2 = [] := by
  refine ⟨?_, ?_, ?_, ?_⟩
  · simp [purge_hosts, purgeWalk_eq_filter]
  · intro h hmem hmark
    simp [purge_hosts, purgeWalk_eq_filter, List.mem_filter, hmem, hmark]
  · simp [purge_hosts, purgeWalk_eq_filter]
  · simp [purge_hosts]

theorem purge_hosts_removes_unmarked_witness :
    ((purge_hosts regW false).1.hosts =
        regW.hosts.filter (fun h => h.mark == regW.current_host_mark)
    ∧ (∀ h ∈ regW.hosts, h.mark = regW.current_host_mark →
        h ∈ (purge_hosts regW false).1.hosts)
    ∧ (purge_hosts regW false).2 =
        (regW.hosts.filter (fun h => h.mark != regW.current_host_mark)).map Host.address
    ∧ (purge_hosts regW true).2 = []) :=
  purge_hosts_removes_unmarked regW false

/-- One atomic action on the keyspace field or its mutex
(`keyspace_mutex_`, `session.hpp:133`), as performed by the bodies of
`Session::keyspace` and `Session::set_keyspace`. -/
inductive KsAction
  | lock
  | unlock
  | read_ks
  | write_ks (v : String)
deriving DecidableEq, Repr

/-- Body of `Session::keyspace` (`session.hpp:68-71`): acquire
`keyspace_mutex_` for the whole body, read `keyspace_`, release on scope
exit. The read returns the current value of the field. -/
def keyspace_body : List KsAction :=
  [KsAction.lock, KsAction.read_ks, KsAction.unlock]

/-- Body of `Session::set_keyspace` (`session.hpp:73-76`): acquire
`keyspace_mutex_` for the whole body, write `keyspace_`, release on scope
exit. -/
def set_keyspace_body (k : String) : List KsAction :=
  [KsAction.lock, KsAction.write_ks k, KsAction.unlock]

/-- Scan an action sequence tracking mutex depth: `true` iff every
`read_ks`/`write_ks` happens while the mutex is held. -/
def accessesLocked : Nat → List KsAction → Bool
  | _, [] => true
  | d, KsAction.lock :: rest => accessesLocked (d + 1) rest
  | d, KsAction.unlock :: rest => accessesLocked (d - 1) rest
  | d, KsAction.read_ks :: rest => decide (0 < d) && accessesLocked d rest
  | d, KsAction.write_ks _ :: rest => decide (0 < d) && accessesLocked d rest

/-- Shared state seen by the keyspace operations: the `keyspace_` string and
the owner of `keyspace_mutex_` (thread id, or free). -/
structure KsState where
  ks : String
  owner : Option Nat
deriving DecidableEq, Repr

/-- Whether thread `t` can perform an action now: the mutex blocks a lock
while held and an unlock by a non-owner; field accesses themselves are
unconstrained (the locking discipline is proved about the bodies, not
assumed). -/
def ksValid (s : KsState) (t : Nat) : KsAction → Bool
  | KsAction.lock => s.owner == none
  | KsAction.unlock => s.owner == some t
  | KsAction.read_ks => true
  | KsAction.write_ks _ => true

/-- Effect of one action by thread `t`. -/
def ksStep (s : KsState) (t : Nat) : KsAction → KsState
  | KsAction.lock => { s with owner := some t }
  | KsAction.unlock => { s with owner := none }
  | KsAction.read_ks => s
  | KsAction.write_ks v => { s with ks := v }

/-- Prepend the value returned by this action to the read log: a `read_ks`
returns the current keyspace value, other actions return nothing. -/
def logTag (a : KsAction) (v : String) (log : List String) : List String :=
  match a with
  | KsAction.read_ks => v :: log
  | _ => log

/-- Run an interleaved trace of thread-tagged actions; `none` if some action
was attempted when the mutex forbade it. Returns the final state and the
log of values returned by the `read_ks` actions, in trace order. -/
def runKs (s : KsState) : List (Nat × KsAction) → Option (KsState × List String)
  | [] => some (s, [])
  | (t, a) :: rest =>
      if ksValid s t a then
        (runKs (ksStep s t a) rest).map (fun p => (p.1, logTag a s.ks p.2))
      else none

/-- Number of `read_ks` actions in a trace (the index of the next read's
entry in the log). -/
def countReads (tr : List (Nat × KsAction)) : Nat :=
  (tr.filter (fun e => e.2 == KsAction.read_ks)).length

/-- A trace fragment that never writes the keyspace field. -/
def noWrite (tr : List (Nat × KsAction)) : Prop :=
  ∀ e ∈ tr, ∀ v, e.2 ≠ KsAction.write_ks v

theorem runKs_append (s : KsState) (xs ys : List (Nat × KsAction)) :
    runKs s (xs ++ ys) =
      (runKs s xs).bind (fun p =>
        (runKs p.1 ys).map (fun q => (q.1, p.2 ++ q.2))) := by
  induction xs generalizing s with
  | nil =>
      simp only [List.nil_append, runKs, Option.some_bind]
      cases runKs s ys with
      | none => rfl
      | some q => simp
  | cons e xs ih =>
      obtain ⟨t, a⟩ := e
      simp only [List.cons_append, runKs]
      cases hv : ksValid s t a with
      | false => simp
      | true =>
          simp only [if_true, List.append_eq, ih]
          cases hx : runKs (ksStep s t a) xs with
          | none => rfl
          | some p =>
              obtain ⟨s', log⟩ := p
              simp only [Option.some_bind, Option.map_some']
              cases hy : runKs s' ys with
              | none => simp
              | some q =>
                  obtain ⟨s'', log'⟩ := q
                  cases a <;> simp [logTag]

theorem runKs_log_length (tr : List (Nat × KsAction)) (s : KsState)
    (s' : KsState) (log : List String) (h : runKs s tr = some (s', log)) :
    log.length = countReads tr := by
  induction tr generalizing s s' log with
  | nil =>
      simp only [runKs, Option.some_inj, Prod.mk.injEq] at h
      rw [← h.2]
      rfl
  | cons e tr ih =>
      obtain ⟨t, a⟩ := e
      simp only [runKs] at h
      by_cases hv : ksValid s t a = true
      · rw [if_pos hv] at h
        cases hx : runKs (ksStep s t a) tr with
        | none => rw [hx] at h; exact absurd h (by simp)
        | some p =>
            obtain ⟨s₁, log₁⟩ := p
            rw [hx] at h
            simp only [Option.map_some', Option.some_inj, Prod.mk.injEq] at h
            obtain ⟨hs, hlog⟩ := h
            have hlen : log₁.length =
                (tr.filter (fun e => e.2 == KsAction.read_ks)).length := by
              simpa [countReads] using ih (ksStep s t a) s₁ log₁ hx
            rw [← hlog]
            cases a <;> simp [countReads, List.filter_cons, logTag, hlen]
      · rw [if_neg hv] at h
        exact absurd h (by simp)

theorem runKs_noWrite_ks (tr : List (Nat × KsAction)) (s : KsState)
    (s' : KsState) (log : List String) (h : runKs s tr = some (s', log))
    (hw : noWrite tr) : s'.ks = s.ks := by
  induction tr generalizing s s' log with
  | nil =>
      simp only [runKs, Option.some_inj, Prod.mk.injEq] at h
      rw [← h.1]
  | cons e tr ih =>
      obtain ⟨t, a⟩ := e
      simp only [runKs] at h
      by_cases hv : ksValid s t a = true
      · rw [if_pos hv] at h
        cases hx : runKs (ksStep s t a) tr with
        | none => rw [hx] at h; exact absurd h (by simp)
        | some p =>
            obtain ⟨s₁, log₁⟩ := p
            rw [hx] at h
            simp only [Option.map_some', Option.some_inj, Prod.mk.injEq] at h
            have htail : noWrite tr := fun e he v => hw e (List.mem_cons_of_mem _ he) v
            have hks : s₁.ks = (ksStep s t a).ks := ih (ksStep s t a) s₁ log₁ hx htail
            have hstep : (ksStep s t a).ks = s.ks := by
              cases a with
              | write_ks v =>
                  exact absurd rfl (hw (t, KsAction.write_ks v) (List.mem_cons_self _ _) v)
              | lock => rfl
              | unlock => rfl
              | read_ks => rfl
            rw [← h.1, hks, hstep]
      · rw [if_neg hv] at h
        exact absurd h (by simp)

/-- Tag every action of an operation body with the id of the thread
executing it. -/
def tagThread (t : Nat) (body : List KsAction) : List (Nat × KsAction) :=
  body.map (fun a => (t, a))

theorem runKs_append_some (s : KsState) (xs ys : List (Nat × KsAction))
    (sf : KsState) (log : List String)
    (h : runKs s (xs ++ ys) = some (sf, log)) :
    ∃ sm lg1 lg2, runKs s xs = some (sm, lg1) ∧ runKs sm ys = some (sf, lg2)
      ∧ log = lg1 ++ lg2 := by
  rw [runKs_append] at h
  cases hx : runKs s xs with
  | none => rw [hx] at h; exact absurd h (by simp)
  | some p =>
      obtain ⟨sm, lg1⟩ := p
      rw [hx] at h
      simp only [Option.some_bind] at h
      cases hy : runKs sm ys with
      | none => rw [hy] at h; exact absurd h (by simp)
      | some q =>
          obtain ⟨sf', lg2⟩ := q
          rw [hy] at h
          simp only [Option.map_some', Option.some_inj, Prod.mk.injEq] at h
          refine ⟨sm, lg1, lg2, rfl, ?_, h.2.symm⟩
          rw [hy, h.1]

theorem runKs_set_keyspace_body (s : KsState) (t : Nat) (k : String)
    (s' : KsState) (lg : List String)
    (h : runKs s (tagThread t (set_keyspace_body k)) = some (s', lg)) :
    s'.ks = k ∧ lg = [] := by
  by_cases ho : (s.owner == (none : Option Nat)) = true
  · simp only [tagThread, set_keyspace_body, List.map_cons, List.map_nil, runKs,
      ksValid, ksStep, ho, if_true, beq_self_eq_true, Option.map_some',
      Option.some_inj, Prod.mk.injEq, logTag] at h
    obtain ⟨hs, hl⟩ := h
    constructor
    · rw [← hs]
    · rw [← hl]
  · simp [tagThread, set_keyspace_body, runKs, ksValid, ho] at h

theorem runKs_lock_only (s : KsState) (t : Nat) (s' : KsState)
    (lg : List String) (h : runKs s [(t, KsAction.lock)] = some (s', lg)) :
    s'.ks = s.ks ∧ lg = [] := by
  by_cases ho : (s.owner == (none : Option Nat)) = true
  · simp only [runKs, ksValid, ksStep, ho, if_true, Option.map_some',
      Option.some_inj, Prod.mk.injEq, logTag] at h
    obtain ⟨hs, hl⟩ := h
    constructor
    · rw [← hs]
    · rw [← hl]
  · simp [runKs, ksValid, ho] at h

theorem runKs_read_head (s : KsState) (t : Nat)
    (rest : List (Nat × KsAction)) (sf : KsState) (lg : List String)
    (h : runKs s ((t, KsAction.read_ks) :: rest) = some (sf, lg)) :
    ∃ lg', lg = s.ks :: lg' := by
  simp only [runKs, ksValid, if_true] at h
  cases hx : runKs (ksStep s t KsAction.read_ks) rest with
  | none => rw [hx] at h; exact absurd h (by simp)
  | some p =>
      obtain ⟨s₁, l₁⟩ := p
      rw [hx] at h
      simp only [Option.map_some', Option.some_inj, Prod.mk.injEq, logTag] at h
      exact ⟨l₁, h.2.symm⟩

/-- Claim C2: in any valid interleaved execution in which some thread runs the
full body of `set_keyspace(k)` and, later, some thread runs the full body of
`keyspace()`, with no write to the keyspace field in between (arbitrary other
actions may interleave), the value returned by that `keyspace()` call is
exactly `k`; moreover both operation bodies access the keyspace field only
while holding `keyspace_mutex_`, so the two operations are atomic with
respect to each other from any thread. -/
theorem set_keyspace_keyspace_roundtrip (s : KsState) (t t' : Nat) (k : String)
    (pre mid post : List (Nat × KsAction)) (sf : KsState) (log : List String)
    (hrun : runKs s (pre ++ tagThread t (set_keyspace_body k) ++ mid
              ++ tagThread t' keyspace_body ++ post) = some (sf, log))
    (hmid : noWrite mid) :
    log.get? (countReads pre + countReads mid) = some k
    ∧ accessesLocked 0 (set_keyspace_body k) = true
    ∧ accessesLocked 0 keyspace_body = true := by
  refine ⟨?_, rfl, rfl⟩
  obtain ⟨s₁, l₁, lr₁, hpre, hrest₁, hlog₁⟩ :=
    runKs_append_some s pre _ sf log (by
      simpa only [List.append_assoc] using hrun)
  obtain ⟨s₂, l₂, lr₂, hset, hrest₂, hlog₂⟩ :=
    runKs_append_some s₁ (tagThread t (set_keyspace_body k)) _ sf lr₁ hrest₁
  obtain ⟨s₃, l₃, lr₃, hmidr, hrest₃, hlog₃⟩ :=
    runKs_append_some s₂ mid _ sf lr₂ hrest₂
  have hks₂ : s₂.ks = k := (runKs_set_keyspace_body s₁ t k s₂ l₂ hset).1
  have hl₂ : l₂ = [] := (runKs_set_keyspace_body s₁ t k s₂ l₂ hset).2
  have hks₃ : s₃.ks = k := by
    rw [runKs_noWrite_ks mid s₂ s₃ l₃ hmidr hmid, hks₂]
  have hbody : tagThread t' keyspace_body ++ post =
      (t', KsAction.lock) :: ((t', KsAction.read_ks) :: ((t', KsAction.unlock) :: post)) := rfl
  rw [hbody] at hrest₃
  have hsplit : (t', KsAction.lock) :: ((t', KsAction.read_ks) :: ((t', KsAction.unlock) :: post))
      = [(t', KsAction.lock)] ++ ((t', KsAction.read_ks) :: ((t', KsAction.unlock) :: post)) := rfl
  rw [hsplit] at hrest₃
  obtain ⟨s₄, l₄, lr₄, hlock, hrest₄, hlog₄⟩ :=
    runKs_append_some s₃ [(t', KsAction.lock)] _ sf lr₃ hrest₃
  have hks₄ : s₄.ks = k := by
    rw [(runKs_lock_only s₃ t' s₄ l₄ hlock).1, hks₃]
  have hl₄ : l₄ = [] := (runKs_lock_only s₃ t' s₄ l₄ hlock).2
  obtain ⟨lg', hread⟩ := runKs_read_head s₄ t' _ sf lr₄ hrest₄
  have hlen₁ : l₁.length = countReads pre := runKs_log_length pre s s₁ l₁ hpre
  have hlen₃ : l₃.length = countReads mid := runKs_log_length mid s₂ s₃ l₃ hmidr
  rw [hlog₁, hlog₂, hlog₃, hlog₄, hl₂, hl₄, hread, hks₄]
  simp only [List.nil_append]
  rw [← List.append_assoc]
  have hidx : countReads pre + countReads mid = (l₁ ++ l₃).length := by
    rw [List.length_append, hlen₁, hlen₃]
  rw [hidx]
  rw [List.get?_eq_getElem?]
  rw [List.getElem?_append_right (Nat.le_refl _)]
  simp

theorem set_keyspace_keyspace_roundtrip_witness :
    ((["k"] : List String).get? (countReads [] + countReads []) = some "k"
    ∧ accessesLocked 0 (set_keyspace_body "k") = true
    ∧ accessesLocked 0 keyspace_body = true) :=
  set_keyspace_keyspace_roundtrip { ks := "", owner := none } 0 1 "k" [] [] []
    { ks := "k", owner := none } ["k"] (by rfl)
    (by intro e he v; simp at he)

/-- Result state of a Future (spec 3): a one-shot cell that is `PENDING`
until it completes with a value or an error. -/
inductive FutureState
  | PENDING
  | COMPLETE
  | ERROR
deriving DecidableEq, Repr

/-- Modelled from the spec: the base `Future` result cell (`future.hpp` is
not in the tree; `session.hpp` only uses it). Three-state result plus value
and error payload, guarded by `mutex_`. -/
structure FutureCell (α : Type) where
  state : FutureState
  result : Option α
  error : Option (Nat × String)
deriving DecidableEq, Repr

/-- A freshly constructed future: pending, no result, no error. -/
def FutureCell.start (α : Type) : FutureCell α :=
  { state := FutureState.PENDING, result := none, error := none }

/-- Modelled from the spec: `Future::set` — one-shot completion with a
value; a no-op on an already resolved cell. -/
def FutureCell.set {α : Type} (c : FutureCell α) (v : α) : FutureCell α :=
  if c.state = FutureState.PENDING then
    { state := FutureState.COMPLETE, result := some v, error := none }
  else c

/-- Modelled from the spec: `Future::internal_wait_for(lock, timeout)`
returns whether completion occurred within the bound and does not modify
the cell; the argument is the cell's state at the moment the call returns
(completion signal or timeout expiry). -/
def internal_wait_for {α : Type} (c : FutureCell α) : Bool × FutureCell α :=
  (c.state != FutureState.PENDING, c)

/-- The Session object as seen by its futures: whether its internal event
loop thread is still running. -/
structure SessObj where
  event_loop_running : Bool
deriving DecidableEq, Repr

/-- Modelled from the spec: `EventThread::join` blocks until the session's
event loop thread has exited; afterwards the thread is not running. -/
def SessObj.join (s : SessObj) : SessObj :=
  { s with event_loop_running := false }

/-- `SessionCloseFuture` (`session.hpp:147-184`): the close-future cell plus
the `session_` pointer (`none` once deleted). `joined` is a ghost log of the
sessions this future has joined and deleted, in their post-join state, so
that "exactly once" is observable in the model. -/
structure SessionCloseFuture where
  cell : FutureCell Unit
  session : Option SessObj
  joined : List SessObj
deriving DecidableEq, Repr

/-- The `if (session_ != NULL) { session_->join(); delete session_;
session_ = NULL; }` block (`session.hpp:162-166` and `172-176`), executed
under `mutex_`. -/
def joinSession (f : SessionCloseFuture) : SessionCloseFuture :=
  match f.session with
  | some s => { f with session := none, joined := f.joined ++ [s.join] }
  | none => f

/-- `SessionCloseFuture::wait_for` (`session.hpp:169-180`): under the lock,
bounded-wait on the cell; on completion join-and-delete the session and
return true, else return false leaving everything unchanged. -/
def SessionCloseFuture.wait_for (f : SessionCloseFuture) :
    Bool × SessionCloseFuture :=
  if (internal_wait_for f.cell).1 then (true, joinSession f) else (false, f)

/-- `SessionCloseFuture::wait` (`session.hpp:157-167`): under the lock,
`internal_wait` returns only once the cell is resolved, then the session is
joined and deleted if still present. The function gives the future's state
at the moment the call returns. -/
def SessionCloseFuture.wait (f : SessionCloseFuture) : SessionCloseFuture :=
  joinSession f

/-- `SessionCloseFuture::~SessionCloseFuture` (`session.hpp:153-155`): the
destructor just calls `wait()`. -/
def SessionCloseFuture.destruct (f : SessionCloseFuture) : SessionCloseFuture :=
  f.wait

/-- Atomic events on a close future, each executed under `mutex_`: the event
loop resolving the cell, a `wait()` call returning, a `wait_for` observing
completion, and a `wait_for` timing out. -/
inductive CloseOp
  | set_close_done
  | wait_return
  | wait_for_hit
  | wait_for_miss
deriving DecidableEq, Repr

/-- When an event can occur: `wait`/completed `wait_for` return only once
the cell is resolved; a `wait_for` timeout is observed only while it is
pending. -/
def closeValid (f : SessionCloseFuture) : CloseOp → Bool
  | CloseOp.set_close_done => true
  | CloseOp.wait_return => f.cell.state != FutureState.PENDING
  | CloseOp.wait_for_hit => f.cell.state != FutureState.PENDING
  | CloseOp.wait_for_miss => f.cell.state == FutureState.PENDING

/-- Effect of each event, as the code performs it. -/
def closeStep (f : SessionCloseFuture) : CloseOp → SessionCloseFuture
  | CloseOp.set_close_done => { f with cell := f.cell.set () }
  | CloseOp.wait_return => f.wait
  | CloseOp.wait_for_hit => (f.wait_for).2
  | CloseOp.wait_for_miss => (f.wait_for).2

/-- Run a sequence of events; `none` if some event occurs in a state its
blocking precondition rules out. -/
def runClose (f : SessionCloseFuture) : List CloseOp → Option SessionCloseFuture
  | [] => some f
  | op :: ops => if closeValid f op then runClose (closeStep f op) ops else none

/-- The close future as constructed (`session.hpp:149-151`): pending cell,
session pointer stored, nothing joined yet. -/
def initClose (s : SessObj) : SessionCloseFuture :=
  { cell := FutureCell.start Unit, session := some s, joined := [] }

/-- Invariant tying the ghost join log to the session pointer: at most one
join, exactly one iff the session has been deleted, and every joined
session's loop thread has exited. -/
def closeInv (f : SessionCloseFuture) : Prop :=
  f.joined.length ≤ 1
  ∧ (f.joined.length = 1 ↔ f.session = none)
  ∧ (∀ s ∈ f.joined, s.event_loop_running = false)

theorem closeStep_inv (f : SessionCloseFuture) (op : CloseOp)
    (h : closeInv f) : closeInv (closeStep f op) := by
  obtain ⟨h1, h2, h3⟩ := h
  cases op with
  | set_close_done => exact ⟨h1, h2, h3⟩
  | wait_return =>
      cases hs : f.session with
      | some s =>
          have hlen : f.joined.length = 0 := by
            rcases Nat.lt_or_ge f.joined.length 1 with hl | hl
            · omega
            · exact absurd (h2.mp (by omega)) (by simp [hs])
          refine ⟨?_, ?_, ?_⟩ <;>
            simp [closeStep, SessionCloseFuture.wait, joinSession, hs,
              List.length_eq_zero.mp hlen, SessObj.join]
      | none =>
          have heq : closeStep f CloseOp.wait_return = f := by
            simp [closeStep, SessionCloseFuture.wait, joinSession, hs]
          rw [heq]
          exact ⟨h1, h2, h3⟩
  | wait_for_hit =>
      cases hw : (internal_wait_for f.cell).1 with
      | false =>
          simpa [closeStep, SessionCloseFuture.wait_for, hw]
            using And.intro h1 (And.intro h2 h3)
      | true =>
          cases hs : f.session with
          | some s =>
              have hlen : f.joined.length = 0 := by
                rcases Nat.lt_or_ge f.joined.length 1 with hl | hl
                · omega
                · exact absurd (h2.mp (by omega)) (by simp [hs])
              refine ⟨?_, ?_, ?_⟩ <;>
                simp [closeStep, SessionCloseFuture.wait_for, hw, joinSession, hs,
                  List.length_eq_zero.mp hlen, SessObj.join]
          | none =>
              have heq : (f.wait_for).2 = f := by
                simp [SessionCloseFuture.wait_for, hw, joinSession, hs]
              simp only [closeStep, heq]
              exact ⟨h1, h2, h3⟩
  | wait_for_miss =>
      cases hw : (internal_wait_for f.cell).1 with
      | false =>
          simpa [closeStep, SessionCloseFuture.wait_for, hw]
            using And.intro h1 (And.intro h2 h3)
      | true =>
          cases hs : f.session with
          | some s =>
              have hlen : f.joined.length = 0 := by
                rcases Nat.lt_or_ge f.joined.length 1 with hl | hl
                · omega
                · exact absurd (h2.mp (by omega)) (by simp [hs])
              refine ⟨?_, ?_, ?_⟩ <;>
                simp [closeStep, SessionCloseFuture.wait_for, hw, joinSession, hs,
                  List.length_eq_zero.mp hlen, SessObj.join]
          | none =>
              have heq : (f.wait_for).2 = f := by
                simp [SessionCloseFuture.wait_for, hw, joinSession, hs]
              simp only [closeStep, heq]
              exact ⟨h1, h2, h3⟩

theorem runClose_inv (ops : List CloseOp) (f g : SessionCloseFuture)
    (h : runClose f ops = some g) (hinv : closeInv f) : closeInv g := by
  induction ops generalizing f with
  | nil =>
      simp only [runClose, Option.some_inj] at h
      rw [← h]; exact hinv
  | cons op ops ih =>
      simp only [runClose] at h
      by_cases hv : closeValid f op = true
      · rw [if_pos hv] at h
        exact ih (closeStep f op) h (closeStep_inv f op hinv)
      · rw [if_neg hv] at h
        exact absurd h (by simp)

theorem joinSession_session (f : SessionCloseFuture) :
    (joinSession f).session = none := by
  cases hs : f.session <;> simp [joinSession, hs]

theorem joinSession_cell (f : SessionCloseFuture) :
    (joinSession f).cell = f.cell := by
  cases hs : f.session <;> simp [joinSession, hs]

theorem closeStep_session_none (f : SessionCloseFuture) (op : CloseOp)
    (h : f.session = none) : (closeStep f op).session = none := by
  cases op with
  | set_close_done => simpa [closeStep] using h
  | wait_return => simp [closeStep, SessionCloseFuture.wait, joinSession, h]
  | wait_for_hit =>
      cases hw : (internal_wait_for f.cell).1 <;>
        simp [closeStep, SessionCloseFuture.wait_for, hw, joinSession, h]
  | wait_for_miss =>
      cases hw : (internal_wait_for f.cell).1 <;>
        simp [closeStep, SessionCloseFuture.wait_for, hw, joinSession, h]

theorem runClose_session_none (ops : List CloseOp) (f g : SessionCloseFuture)
    (h : runClose f ops = some g) (hs : f.session = none) :
    g.session = none := by
  induction ops generalizing f with
  | nil =>
      simp only [runClose, Option.some_inj] at h
      rw [← h]; exact hs
  | cons op ops ih =>
      simp only [runClose] at h
      by_cases hv : closeValid f op = true
      · rw [if_pos hv] at h
        exact ih (closeStep f op) h (closeStep_session_none f op hs)
      · rw [if_neg hv] at h
        exact absurd h (by simp)

theorem runClose_wait_deletes (ops : List CloseOp) (f g : SessionCloseFuture)
    (h : runClose f ops = some g)
    (hmem : CloseOp.wait_return ∈ ops ∨ CloseOp.wait_for_hit ∈ ops) :
    g.session = none := by
  induction ops generalizing f with
  | nil => simp at hmem
  | cons op ops ih =>
      simp only [runClose] at h
      by_cases hv : closeValid f op = true
      · rw [if_pos hv] at h
        by_cases hop : op = CloseOp.wait_return ∨ op = CloseOp.wait_for_hit
        · have hnone : (closeStep f op).session = none := by
            rcases hop with rfl | rfl
            · exact joinSession_session f
            · have hw : (internal_wait_for f.cell).1 = true := by
                simpa [closeValid, internal_wait_for] using hv
              simp [closeStep, SessionCloseFuture.wait_for, hw, joinSession_session]
          exact runClose_session_none ops _ g h hnone
        · have hmem' : CloseOp.wait_return ∈ ops ∨ CloseOp.wait_for_hit ∈ ops := by
            rcases hmem with hm | hm <;> rcases List.mem_cons.mp hm with heq | hm'
            · exact absurd (Or.inl heq.symm) hop
            · exact Or.inl hm'
            · exact absurd (Or.inr heq.symm) hop
            · exact Or.inr hm'
          exact ih (closeStep f op) h hmem'
      · rw [if_neg hv] at h
        exact absurd h (by simp)

/-- Claim C8: on a SessionCloseFuture the join-and-delete of the Session
happens exactly once across any valid sequence of completion, `wait` and
`wait_for` events: at most one join ever happens, the join count is one
exactly when the session pointer has been nulled (which happens under the
result lock), and once some wait observed completion the session has been
joined and deleted exactly once — later waits do not join again. -/
theorem close_future_join_exactly_once (s : SessObj) (ops : List CloseOp)
    (g : SessionCloseFuture) (h : runClose (initClose s) ops = some g) :
    g.joined.length ≤ 1
    ∧ (g.joined.length = 1 ↔ g.session = none)
    ∧ ((CloseOp.wait_return ∈ ops ∨ CloseOp.wait_for_hit ∈ ops) →
        g.joined.length = 1) := by
  have hinv : closeInv g :=
    runClose_inv ops _ g h (by simp [closeInv, initClose])
  refine ⟨hinv.1, hinv.2.1, ?_⟩
  intro hmem
  exact hinv.2.1.mpr (runClose_wait_deletes ops _ g h hmem)

/-- The close future after the completion/wait sequence used by the
witnesses below: close completed, session joined and deleted once. -/
def closeFutW : SessionCloseFuture :=
  { cell := { state := FutureState.COMPLETE, result := some (), error := none }
    session := none
    joined := [{ event_loop_running := false }] }

theorem close_future_join_exactly_once_witness :
    (closeFutW.joined.length ≤ 1
    ∧ (closeFutW.joined.length = 1 ↔ closeFutW.session = none)
    ∧ ((CloseOp.wait_return ∈ [CloseOp.set_close_done, CloseOp.wait_return, CloseOp.wait_for_hit]
        ∨ CloseOp.wait_for_hit ∈ [CloseOp.set_close_done, CloseOp.wait_return, CloseOp.wait_for_hit]) →
        closeFutW.joined.length = 1)) :=
  close_future_join_exactly_once { event_loop_running := true }
    [CloseOp.set_close_done, CloseOp.wait_return, CloseOp.wait_for_hit] closeFutW (by rfl)

/-- Claim C7: `wait_for` on a future whose result is not yet available
returns false and leaves the future unchanged, still `PENDING`; the timed-out
call does not cancel the underlying operation — completion still resolves the
cell with its true result, which a later `wait_for` or `wait` on the same
future observes. -/
theorem wait_for_timeout_no_cancel (f : SessionCloseFuture)
    (h : f.cell.state = FutureState.PENDING) :
    f.wait_for = (false, f)
    ∧ (closeStep f CloseOp.set_close_done).cell.state = FutureState.COMPLETE
    ∧ (closeStep f CloseOp.set_close_done).cell.result = some ()
    ∧ ((closeStep f CloseOp.set_close_done).wait_for).1 = true
    ∧ ((closeStep f CloseOp.set_close_done).wait).cell.result = some () := by
  refine ⟨?_, ?_, ?_, ?_, ?_⟩
  · simp [SessionCloseFuture.wait_for, internal_wait_for, h]
  · simp [closeStep, FutureCell.set, h]
  · simp [closeStep, FutureCell.set, h]
  · simp [closeStep, SessionCloseFuture.wait_for, internal_wait_for, FutureCell.set, h]
  · rw [SessionCloseFuture.wait, joinSession_cell]
    simp [closeStep, FutureCell.set, h]

theorem wait_for_timeout_no_cancel_witness :
    ((initClose { event_loop_running := true }).wait_for
        = (false, initClose { event_loop_running := true })
    ∧ (closeStep (initClose { event_loop_running := true })
        CloseOp.set_close_done).cell.state = FutureState.COMPLETE
    ∧ (closeStep (initClose { event_loop_running := true })
        CloseOp.set_close_done).cell.result = some ()
    ∧ ((closeStep (initClose { event_loop_running := true })
        CloseOp.set_close_done).wait_for).1 = true
    ∧ ((closeStep (initClose { event_loop_running := true })
        CloseOp.set_close_done).wait).cell.result = some ()) :=
  wait_for_timeout_no_cancel (initClose { event_loop_running := true }) (by rfl)

/-- Claim C10: the destructor of SessionCloseFuture implicitly calls
`wait()`; letting the future go out of scope therefore returns only once the
close has completed (the cell resolved), with the Session joined and deleted
— never while the session's event loop thread is still running. -/
theorem close_future_destructor_waits (s : SessObj) (ops : List CloseOp)
    (f : SessionCloseFuture) (h : runClose (initClose s) ops = some f)
    (hdone : f.cell.state ≠ FutureState.PENDING) :
    f.destruct = f.wait
    ∧ (f.destruct).session = none
    ∧ (∀ j ∈ (f.destruct).joined, j.event_loop_running = false)
    ∧ (f.destruct).cell.state ≠ FutureState.PENDING := by
  have hinv : closeInv f :=
    runClose_inv ops _ f h (by simp [closeInv, initClose])
  refine ⟨rfl, joinSession_session f, ?_, ?_⟩
  · intro j hj
    cases hs : f.session with
    | some s' =>
        simp only [SessionCloseFuture.destruct, SessionCloseFuture.wait,
          joinSession, hs, List.mem_append, List.mem_singleton] at hj
        rcases hj with hj | rfl
        · exact hinv.2.2 j hj
        · rfl
    | none =>
        simp only [SessionCloseFuture.destruct, SessionCloseFuture.wait,
          joinSession, hs] at hj
        exact hinv.2.2 j hj
  · rw [SessionCloseFuture.destruct, SessionCloseFuture.wait, joinSession_cell]
    exact hdone

/-- The close future with its close completed but not yet waited on, used by
the destructor witness. -/
def closeFutW2 : SessionCloseFuture :=
  { cell := { state := FutureState.COMPLETE, result := some (), error := none }
    session := some { event_loop_running := true }
    joined := [] }

theorem close_future_destructor_waits_witness :
    (closeFutW2.destruct = closeFutW2.wait
    ∧ (closeFutW2.destruct).session = none
    ∧ (∀ j ∈ (closeFutW2.destruct).joined, j.event_loop_running = false)
    ∧ (closeFutW2.destruct).cell.state ≠ FutureState.PENDING) :=
  close_future_destructor_waits { event_loop_running := true }
    [CloseOp.set_close_done] closeFutW2 (by rfl) (by decide)

/-- `SessionConnectFuture` (`session.hpp:186-200`): a `ResultFuture<Session>`
whose result cell holds the connected Session until some caller takes it. -/
structure SessionConnectFuture where
  result : Option SessObj
deriving DecidableEq, Repr

/-- Modelled from the spec: `ResultFuture<Session>::release_result`
(`future.hpp` is not in the tree) — the "take result" operation, callable at
most once: returns the held session and empties the cell. -/
def release_result (f : SessionConnectFuture) :
    Option SessObj × SessionConnectFuture :=
  (f.result, { result := none })

/-- Modelled from the spec: `Session::close_async(future)` (declared at
`session.hpp:94`) schedules close on the session's event loop, which stops
the workers and eventually resolves the close future — close always succeeds
eventually (spec 7). `closeRun` is that close future once the event loop has
finished the close: the session bound in and the cell resolved. -/
def closeRun (s : SessObj) : SessionCloseFuture :=
  closeStep (initClose s) CloseOp.set_close_done

/-- `SessionConnectFuture::~SessionConnectFuture` (`session.hpp:191-199`):
take the result; if the session was never obtained, build a
`SessionCloseFuture`, call `close_async` on the session and synchronously
`wait()` on the close future. Returns the emptied future and, when a close
was needed, the waited close future. -/
def SessionConnectFuture.destruct (f : SessionConnectFuture) :
    SessionConnectFuture × Option SessionCloseFuture :=
  match release_result f with
  | (some session, f') => (f', some ((closeRun session).wait))
  | (none, f') => (f', none)

/-- Claim C1: destroying a SessionConnectFuture that still holds its Session
(no caller ever took it) makes the destructor itself initiate close of that
Session and synchronously wait for the close to complete before returning:
afterwards the result cell is empty and the close future it waited on is
resolved, its session joined exactly once and deleted, with the joined
session's event loop no longer running — no Session remains open. -/
theorem connect_future_destructor_closes (f : SessionConnectFuture)
    (s : SessObj) (h : f.result = some s) :
    (f.destruct).1.result = none
    ∧ (f.destruct).2 = some ((closeRun s).wait)
    ∧ ((closeRun s).wait).cell.state = FutureState.COMPLETE
    ∧ ((closeRun s).wait).session = none
    ∧ ((closeRun s).wait).joined = [s.join]
    ∧ (s.join).event_loop_running = false := by
  refine ⟨?_, ?_, ?_, ?_, ?_, ?_⟩
  · simp [SessionConnectFuture.destruct, release_result, h]
  · simp [SessionConnectFuture.destruct, release_result, h]
  · rw [SessionCloseFuture.wait, joinSession_cell]
    simp [closeRun, closeStep, initClose, FutureCell.set, FutureCell.start]
  · exact joinSession_session _
  · simp [SessionCloseFuture.wait, joinSession, closeRun, closeStep, initClose]
  · rfl

theorem connect_future_destructor_closes_witness :
    ((SessionConnectFuture.destruct { result := some { event_loop_running := true } }).1.result = none
    ∧ (SessionConnectFuture.destruct { result := some { event_loop_running := true } }).2
        = some ((closeRun { event_loop_running := true }).wait)
    ∧ ((closeRun { event_loop_running := true }).wait).cell.state = FutureState.COMPLETE
    ∧ ((closeRun { event_loop_running := true }).wait).session = none
    ∧ ((closeRun { event_loop_running := true }).wait).joined
        = [SessObj.join { event_loop_running := true }]
    ∧ (SessObj.join { event_loop_running := true }).event_loop_running = false) :=
  connect_future_destructor_closes { result := some { event_loop_running := true } }
    { event_loop_running := true } (by rfl)

/-- In-flight connect bookkeeping of the Session: the `connect_future_`
slot (`session.hpp:134`), the keyspace stored for post-connect application,
and whether the CONNECT event has been scheduled on the session's own event
loop. Futures are identified by id. -/
structure SessionConn where
  connect_future : Option Nat
  keyspace_pending : String
  connect_scheduled : Bool
deriving DecidableEq, Repr

/-- Modelled from the spec: `Session::connect_async(keyspace, future)`
(declared at `session.hpp:93`), spec 4.3: reject — returning failure for
the "already connecting" error — if a connect is already in flight, else
store the keyspace to apply post-connect, store the future, and schedule
establishment of the control connection on the session's event loop. -/
def connect_async (st : SessionConn) (keyspace : String) (future : Nat) :
    Bool × SessionConn :=
  if st.connect_future.isSome then
    (false, st)
  else
    let st' : SessionConn :=
      { connect_future := some future
        keyspace_pending := keyspace
        connect_scheduled := true }
    (true, st')

/-- Claim C5: `connect_async` called while a connect is already in flight
fails immediately (the "already connecting" rejection, returning false) and
leaves the session state — the stored first future and everything that
determines its outcome — completely unchanged. -/
theorem connect_async_rejects_second (st : SessionConn) (f₁ f₂ : Nat)
    (ks : String) (h : st.connect_future = some f₁) :
    (connect_async st ks f₂).1 = false
    ∧ (connect_async st ks f₂).2 = st
    ∧ (connect_async st ks f₂).2.connect_future = some f₁ := by
  refine ⟨?_, ?_, ?_⟩ <;> simp [connect_async, h]

theorem connect_async_rejects_second_witness :
    ((connect_async { connect_future := some 1, keyspace_pending := "a", connect_scheduled := true } "b" 2).1 = false
    ∧ (connect_async { connect_future := some 1, keyspace_pending := "a", connect_scheduled := true } "b" 2).2
        = { connect_future := some 1, keyspace_pending := "a", connect_scheduled := true }
    ∧ (connect_async { connect_future := some 1, keyspace_pending := "a", connect_scheduled := true } "b" 2).2.connect_future
        = some 1) :=
  connect_async_rejects_second
    { connect_future := some 1, keyspace_pending := "a", connect_scheduled := true }
    1 2 "b" (by rfl)

/-- Connect-progress counters of the Session (`session.hpp:141-143`)
together with the resolution flag of the connect future. -/
structure ConnectProgress where
  pending_resolve_count : Nat
  pending_pool_count : Nat
  pending_workers_count : Nat
  future_resolved : Bool
deriving DecidableEq, Repr

/-- Completion of one asynchronous connect sub-step: an address resolution,
a per-host connection pool, or a worker start. -/
inductive ConnectStep
  | resolve_done
  | pool_done
  | worker_done
deriving DecidableEq, Repr

/-- Modelled from the spec: the readiness check run after every counter
decrement during the connect protocol (spec 4.3 step 4) — the connect
future is resolved only once `pending_resolve_count`, `pending_pool_count`
and `pending_workers_count` have all reached zero. -/
def maybe_set_ready (s : ConnectProgress) : ConnectProgress :=
  if s.pending_resolve_count = 0 ∧ s.pending_pool_count = 0
      ∧ s.pending_workers_count = 0 then
    { s with future_resolved := true }
  else s

/-- Modelled from the spec: each sub-step completion decrements its counter
and re-runs the readiness check. -/
def connectStep (s : ConnectProgress) : ConnectStep → ConnectProgress
  | ConnectStep.resolve_done =>
      maybe_set_ready { s with pending_resolve_count := s.pending_resolve_count - 1 }
  | ConnectStep.pool_done =>
      maybe_set_ready { s with pending_pool_count := s.pending_pool_count - 1 }
  | ConnectStep.worker_done =>
      maybe_set_ready { s with pending_workers_count := s.pending_workers_count - 1 }

/-- Run a sequence of sub-step completions. -/
def runConnect (s : ConnectProgress) : List ConnectStep → ConnectProgress
  | [] => s
  | st :: rest => runConnect (connectStep s st) rest

/-- Counter state at `on_control_connection_ready` (`session.hpp:118`):
the number of pending resolutions, pools and worker starts; the connect
future still pending. -/
def connectStart (nr np nw : Nat) : ConnectProgress :=
  { pending_resolve_count := nr
    pending_pool_count := np
    pending_workers_count := nw
    future_resolved := false }

/-- The connect future is resolved only with all counters at zero. -/
def connectInv (s : ConnectProgress) : Prop :=
  s.future_resolved = true →
    s.pending_resolve_count = 0 ∧ s.pending_pool_count = 0
      ∧ s.pending_workers_count = 0

theorem maybe_set_ready_inv (s : ConnectProgress) (h : connectInv s) :
    connectInv (maybe_set_ready s) := by
  unfold connectInv maybe_set_ready at *
  by_cases hc : s.pending_resolve_count = 0 ∧ s.pending_pool_count = 0
      ∧ s.pending_workers_count = 0
  · rw [if_pos hc]
    intro _
    exact hc
  · rw [if_neg hc]
    exact h

theorem connectStep_inv (s : ConnectProgress) (st : ConnectStep)
    (h : connectInv s) : connectInv (connectStep s st) := by
  cases st with
  | resolve_done =>
      apply maybe_set_ready_inv
      intro hres
      obtain ⟨h1, h2, h3⟩ := h hres
      exact ⟨by simp [h1], h2, h3⟩
  | pool_done =>
      apply maybe_set_ready_inv
      intro hres
      obtain ⟨h1, h2, h3⟩ := h hres
      exact ⟨h1, by simp [h2], h3⟩
  | worker_done =>
      apply maybe_set_ready_inv
      intro hres
      obtain ⟨h1, h2, h3⟩ := h hres
      exact ⟨h1, h2, by simp [h3]⟩

theorem runConnect_inv (steps : List ConnectStep) (s : ConnectProgress)
    (h : connectInv s) : connectInv (runConnect s steps) := by
  induction steps generalizing s with
  | nil => exact h
  | cons st rest ih => exact ih _ (connectStep_inv s st h)

/-- Claim C6: during the connect protocol the connect future resolves only
once `pending_resolve_count`, `pending_pool_count` and
`pending_workers_count` have all reached zero: after any sequence of
sub-step completions from `on_control_connection_ready`, if the future is
resolved then all three counters are zero — equivalently, while any counter
is nonzero the future stays pending. -/
theorem connect_resolves_only_counters_zero (nr np nw : Nat)
    (steps : List ConnectStep)
    (h : (runConnect (connectStart nr np nw) steps).future_resolved = true) :
    (runConnect (connectStart nr np nw) steps).pending_resolve_count = 0
    ∧ (runConnect (connectStart nr np nw) steps).pending_pool_count = 0
    ∧ (runConnect (connectStart nr np nw) steps).pending_workers_count = 0 := by
  refine runConnect_inv steps (connectStart nr np nw) ?_ h
  intro hres
  simp [connectStart] at hres

theorem connect_resolves_only_counters_zero_witness :
    ((runConnect (connectStart 1 1 1)
        [ConnectStep.resolve_done, ConnectStep.pool_done, ConnectStep.worker_done]).pending_resolve_count = 0
    ∧ (runConnect (connectStart 1 1 1)
        [ConnectStep.resolve_done, ConnectStep.pool_done, ConnectStep.worker_done]).pending_pool_count = 0
    ∧ (runConnect (connectStart 1 1 1)
        [ConnectStep.resolve_done, ConnectStep.pool_done, ConnectStep.worker_done]).pending_workers_count = 0) :=
  connect_resolves_only_counters_zero 1 1 1
    [ConnectStep.resolve_done, ConnectStep.pool_done, ConnectStep.worker_done]
    (by decide)

/-- Event type delivered to the Session's event loop
(`SessionEvent::Type`, `session.hpp:49-54`). -/
inductive SessionEventType
  | CONNECT
  | NOTIFY_READY
  | NOTIFY_CLOSED
  | NOTIFY_UP
  | NOTIFY_DOWN
deriving DecidableEq, Repr

/-- `SessionEvent` (`session.hpp:48-59`): the event type, the host address
it concerns, and — for NOTIFY_DOWN — whether the failure was critical. -/
structure SessionEvent where
  type : SessionEventType
  address : Address
  is_critical_failure : Bool
deriving DecidableEq, Repr

/-- Modelled from the spec: the bounded event queue of
`EventThread<SessionEvent>` (`event_thread.hpp` is not in the tree) onto
which the notify calls marshal events for the session's event loop. -/
structure EventQueue where
  capacity : Nat
  items : List SessionEvent
deriving DecidableEq, Repr

/-- Modelled from the spec: `EventThread::send_event_async` — enqueue the
event and wake the loop, returning whether the enqueue succeeded (the
bounded queue was not full). -/
def send_event_async (q : EventQueue) (e : SessionEvent) : Bool × EventQueue :=
  if q.items.length < q.capacity then
    (true, { q with items := q.items ++ [e] })
  else
    (false, q)

/-- Modelled from the spec: `Session::notify_ready_async`
(declared at `session.hpp:87`) — marshal a NOTIFY_READY event onto the
session event loop. Fields without meaning for this event keep their
defaults. -/
def notify_ready_async (q : EventQueue) : Bool × EventQueue :=
  send_event_async q
    { type := SessionEventType.NOTIFY_READY, address := 0, is_critical_failure := false }

/-- Modelled from the spec: `Session::notify_closed_async`
(declared at `session.hpp:88`). -/
def notify_closed_async (q : EventQueue) : Bool × EventQueue :=
  send_event_async q
    { type := SessionEventType.NOTIFY_CLOSED, address := 0, is_critical_failure := false }

/-- Modelled from the spec: `Session::notify_up_async(address)`
(declared at `session.hpp:89`). -/
def notify_up_async (q : EventQueue) (address : Address) : Bool × EventQueue :=
  send_event_async q
    { type := SessionEventType.NOTIFY_UP, address := address, is_critical_failure := false }

/-- The NOTIFY_DOWN event built by `notify_down_async`: the critical-failure
flag of the call is carried in the event. -/
def downEvent (address : Address) (is_critical_failure : Bool) : SessionEvent :=
  { type := SessionEventType.NOTIFY_DOWN
    address := address
    is_critical_failure := is_critical_failure }

/-- Modelled from the spec: `Session::notify_down_async(address,
is_critical_failure)` (declared at `session.hpp:90`). -/
def notify_down_async (q : EventQueue) (address : Address)
    (is_critical_failure : Bool) : Bool × EventQueue :=
  send_event_async q (downEvent address is_critical_failure)

/-- Modelled from the spec: the session event loop dequeues events in order
and delivers each to `Session::on_event` (`session.hpp:108`); the event
delivered is the queued entry itself. -/
def dequeue_event (q : EventQueue) : Option (SessionEvent × EventQueue) :=
  match q.items with
  | [] => none
  | e :: rest => some (e, { q with items := rest })

/-- Claim C9: every notify_*_async returns whether its event was enqueued
onto the session event loop (true exactly when the bounded queue had room,
false leaving the queue unchanged otherwise), and a NOTIFY_DOWN preserves
the critical-failure distinction: the enqueued event is NOTIFY_DOWN for the
given address carrying exactly the flag passed, so the flag `on_event`
receives equals the caller's and critical and non-critical down
notifications are never collapsed. -/
theorem notify_async_enqueue_preserves_flag (q : EventQueue) (a : Address)
    (c : Bool) (h : q.items.length < q.capacity) :
    (notify_ready_async q).1 = true
    ∧ (notify_closed_async q).1 = true
    ∧ (notify_up_async q a).1 = true
    ∧ (notify_down_async q a c).1 = true
    ∧ (notify_down_async q a c).2.items = q.items ++ [downEvent a c]
    ∧ (∀ q' : EventQueue, ¬ q'.items.length < q'.capacity →
        (notify_down_async q' a c).1 = false ∧ (notify_down_async q' a c).2 = q')
    ∧ (∀ e, ((notify_down_async q a c).2.items).getLast? = some e →
        e.type = SessionEventType.NOTIFY_DOWN ∧ e.address = a
          ∧ e.is_critical_failure = c) := by
  refine ⟨?_, ?_, ?_, ?_, ?_, ?_, ?_⟩
  · simp [notify_ready_async, send_event_async, h]
  · simp [notify_closed_async, send_event_async, h]
  · simp [notify_up_async, send_event_async, h]
  · simp [notify_down_async, send_event_async, h]
  · simp [notify_down_async, send_event_async, h]
  · intro q' h'
    constructor <;> simp [notify_down_async, send_event_async, h']
  · intro e he
    simp only [notify_down_async, send_event_async, h, if_pos,
      List.getLast?_concat, Option.some_inj] at he
    rw [← he]
    exact ⟨rfl, rfl, rfl⟩

theorem notify_async_enqueue_preserves_flag_witness :
    ((notify_ready_async { capacity := 4, items := [] }).1 = true
    ∧ (notify_closed_async { capacity := 4, items := [] }).1 = true
    ∧ (notify_up_async { capacity := 4, items := [] } 7).1 = true
    ∧ (notify_down_async { capacity := 4, items := [] } 7 true).1 = true
    ∧ (notify_down_async { capacity := 4, items := [] } 7 true).2.items
        = ({ capacity := 4, items := [] } : EventQueue).items ++ [downEvent 7 true]
    ∧ (∀ q' : EventQueue, ¬ q'.items.length < q'.capacity →
        (notify_down_async q' 7 true).1 = false ∧ (notify_down_async q' 7 true).2 = q')
    ∧ (∀ e, ((notify_down_async { capacity := 4, items := [] } 7 true).2.items).getLast? = some e →
        e.type = SessionEventType.NOTIFY_DOWN ∧ e.address = 7
          ∧ e.is_critical_failure = true)) :=
  notify_async_enqueue_preserves_flag { capacity := 4, items := [] } 7 true (by decide)
